import Mathlib

/-!
Shallow embedding of the restoration-testing subsystem of the `dgmo`
repository (`src/restoration-testing/`): the extraction engine
(`extraction_engine.py`), the comparison engine (`comparison_engine.py`)
and the progress tracker (`progress_tracker.py`).

Paths and messages are modelled as `List Char` so that every operation is
a plain structural recursion that the kernel can evaluate.  Python floats
(timestamps, rates) are modelled as exact rationals; the filesystem is
modelled as explicit data passed to the functions (a member list for an
archive, an association list of relative path to file entry for a
directory tree), with a Boolean per item recording whether the
corresponding I/O operation succeeds.
-/

namespace DGMO

/-! ## Character-list string utilities

`startsWithChars hay needle` is Python's `str.startswith`;
`containsChars hay needle` is Python's `needle in hay` substring test;
`splitSlash` is `str.split('/')`; `joinSlash` is `'/'.join`. -/

def startsWithChars : List Char → List Char → Bool
  | _, [] => true
  | [], _ :: _ => false
  | a :: as, b :: bs => a = b && startsWithChars as bs

def containsChars : List Char → List Char → Bool
  | [], needle => startsWithChars [] needle
  | c :: rest, needle => startsWithChars (c :: rest) needle || containsChars rest needle

def splitSlash : List Char → List (List Char)
  | [] => [[]]
  | c :: rest =>
    if c = '/' then [] :: splitSlash rest
    else
      match splitSlash rest with
      | [] => [[c]]
      | h :: t => (c :: h) :: t

def joinSlash : List (List Char) → List Char
  | [] => []
  | [x] => x
  | x :: y :: t => x ++ '/' :: joinSlash (y :: t)

/-! ## `os.path.normpath` (POSIX)

Mirrors CPython's `posixpath.normpath`: count initial slashes (two are
special), split on `/`, drop empty and `.` components, fold `..` against
the accumulated components exactly as the CPython loop does, rejoin. -/

def normLoop (initialSlashes : Nat) (acc : List (List Char)) :
    List (List Char) → List (List Char)
  | [] => acc
  | comp :: rest =>
    if comp = [] ∨ comp = ['.'] then
      normLoop initialSlashes acc rest
    else if comp ≠ ['.', '.'] ∨ (initialSlashes = 0 ∧ acc = []) ∨
        (acc ≠ [] ∧ acc.getLast? = some ['.', '.']) then
      normLoop initialSlashes (acc ++ [comp]) rest
    else if acc ≠ [] then
      normLoop initialSlashes acc.dropLast rest
    else
      normLoop initialSlashes acc rest

def normpath (p : List Char) : List Char :=
  if p = [] then ['.']
  else
    let initialSlashes : Nat :=
      if p.take 1 = ['/'] then
        if p.take 2 = ['/', '/'] ∧ ¬ p.take 3 = ['/', '/', '/'] then 2 else 1
      else 0
    let newComps := normLoop initialSlashes [] (splitSlash p)
    let path := List.replicate initialSlashes '/' ++ joinSlash newComps
    if path = [] then ['.'] else path

/-! ## Lexical path resolution

The destination root (`extraction_dir.resolve()`) is an absolute path
given by its list of segments.  `resolveAbs root rel` models
`(extraction_dir / rel).resolve()` lexically: each `..` pops one segment
(clamped at the filesystem root), other segments are appended.
`Path.relative_to(extraction_dir)` succeeds exactly when the root's
segments are an initial run of the resolved path's segments. -/

def resolveAbs (root : List (List Char)) (rel : List Char) : List (List Char) :=
  (splitSlash rel).foldl
    (fun acc comp =>
      if comp = [] ∨ comp = ['.'] then acc
      else if comp = ['.', '.'] then acc.dropLast
      else acc ++ [comp])
    root

def isDescendantOf (path root : List (List Char)) : Bool :=
  path.take root.length = root

/-! ## Extraction engine (`extraction_engine.py`)

`MAX_EXTRACT_SIZE` is the module constant; `validate_path_security` is
`ExtractionEngine._validate_path_security`; `extractLoopI` is the member
loop shared by `_extract_tar` and `_extract_zip` (with the per-member
`_check_interrupted` poll); `test_extraction` is the top-level entry
point with its enclosing try/except. -/

def MAX_EXTRACT_SIZE : Nat := 10 * 1024 * 1024 * 1024

/-- `ExtractionEngine._validate_path_security`: normalize the member
path, reject if the normalized path contains `..` as a substring or
starts with `/`, otherwise resolve it under the extraction directory and
require the result to stay inside it (`Path.relative_to`). -/
def validate_path_security (memberPath : List Char) (root : List (List Char)) : Bool :=
  let m := normpath memberPath
  if containsChars m ['.', '.'] || startsWithChars m ['/'] then false
  else isDescendantOf (resolveAbs root m) root

/-- One archive member, as seen by the extraction loop.  `name` is the
member path inside the archive, `size` its declared size, `isfile`
whether it is a regular file; `extractOk` records whether the actual
`tar.extract` / `zip_file.extract` call for this member succeeds. -/
structure TarMember where
  name : List Char
  size : Nat
  isfile : Bool
  extractOk : Bool
deriving DecidableEq, Repr

structure ExtractionMetadata where
  total_files : Nat
  total_size : Nat
  extracted_files : Nat
  extracted_size : Nat
  errors : List (List Char)
  warnings : List (List Char)
deriving DecidableEq, Repr

def skippedUnsafeMsg (name : List Char) : List Char :=
  "Skipped unsafe path: ".data ++ name

def skippedOversizedMsg (name : List Char) : List Char :=
  "Skipped oversized file: ".data ++ name

def failedExtractMsg (name : List Char) : List Char :=
  "Failed to extract ".data ++ name

def interruptedMsg : List Char := "Extraction interrupted by user".data

def initMetadata (members : List TarMember) : ExtractionMetadata :=
  { total_files := members.length
    total_size := (members.filter (·.isfile)).foldl (fun a m => a + m.size) 0
    extracted_files := 0
    extracted_size := 0
    errors := []
    warnings := [] }

/-- The per-member loop of `_extract_tar` / `_extract_zip`.  `intr` is
the index at which the shared interruption flag becomes set (`none` for
an uninterrupted run): `_check_interrupted` raises at the top of that
iteration, aborting the loop with the metadata accumulated so far.  The
second component of the result is the interruption error (if any); the
last component is the list of members actually written to disk. -/
def extractLoopI (root : List (List Char)) (intr : Option Nat) :
    Nat → ExtractionMetadata → List TarMember → List TarMember →
    Option (List Char) × ExtractionMetadata × List TarMember
  | _, md, written, [] => (none, md, written)
  | i, md, written, m :: rest =>
    if intr = some i then (some interruptedMsg, md, written)
    else if validate_path_security m.name root = false then
      extractLoopI root intr (i + 1)
        { md with warnings := md.warnings ++ [skippedUnsafeMsg m.name] } written rest
    else if MAX_EXTRACT_SIZE < m.size then
      extractLoopI root intr (i + 1)
        { md with warnings := md.warnings ++ [skippedOversizedMsg m.name] } written rest
    else if m.extractOk then
      extractLoopI root intr (i + 1)
        { md with
          extracted_files := md.extracted_files + 1
          extracted_size := md.extracted_size + (if m.isfile then m.size else 0) }
        (written ++ [m]) rest
    else
      extractLoopI root intr (i + 1)
        { md with errors := md.errors ++ [failedExtractMsg m.name] } written rest

/-- `_extract_tar` without interruption: runs the member loop over the
whole archive starting from fresh counters. -/
def extract_tar (root : List (List Char)) (members : List TarMember) :
    ExtractionMetadata × List TarMember :=
  let r := extractLoopI root none 0 (initMetadata members) [] members
  (r.2.1, r.2.2)

/-- Whether a member passes both pre-write gates and its write call
succeeds: exactly the members the loop extracts. -/
def extractedPred (root : List (List Char)) (m : TarMember) : Bool :=
  validate_path_security m.name root && decide (m.size ≤ MAX_EXTRACT_SIZE) && m.extractOk

/-- The warning (if any) the loop records for a member. -/
def warnOf (root : List (List Char)) (m : TarMember) : Option (List Char) :=
  if validate_path_security m.name root = false then some (skippedUnsafeMsg m.name)
  else if MAX_EXTRACT_SIZE < m.size then some (skippedOversizedMsg m.name)
  else none

/-- The error (if any) the loop records for a member. -/
def errOf (root : List (List Char)) (m : TarMember) : Option (List Char) :=
  if validate_path_security m.name root && decide (m.size ≤ MAX_EXTRACT_SIZE) && !m.extractOk
  then some (failedExtractMsg m.name) else none

/-- Byte count the loop adds for a member it writes. -/
def writtenBytes (m : TarMember) : Nat :=
  if m.isfile then m.size else 0

/-! ## Top-level `test_extraction`

The archive and the environment it is opened in are modelled as explicit
data: each fallible step of the body of `test_extraction` carries a
Boolean (or `Option`) recording whether the corresponding I/O operation
succeeds.  The enclosing `try`/`except Exception` of `test_extraction`
is the `match` on the pipeline's error component: every failure becomes
a returned `ExtractionResult` with `success := false`. -/

structure ArchiveInput where
  /-- `backup_path.exists()` -/
  present : Bool
  /-- `backup_path.is_file()` -/
  isFile : Bool
  /-- result of `_detect_format` (`none`: it raises `ExtractionError`) -/
  format : Option (List Char)
  /-- whether creating / resolving the extraction directory succeeds -/
  destOk : Bool
  /-- whether streaming the whole-archive checksum succeeds -/
  checksumOk : Bool
  /-- the archive's member list, in archive order -/
  members : List TarMember
  /-- index of the member iteration at which the interruption flag is
  first seen set (`none`: never interrupted) -/
  interruptAt : Option Nat
deriving DecidableEq, Repr

def emptyMetadata : ExtractionMetadata :=
  { total_files := 0, total_size := 0, extracted_files := 0, extracted_size := 0
    errors := [], warnings := [] }

def notFoundMsg : List Char := "Backup file not found".data
def notAFileMsg : List Char := "Path is not a file".data
def unsupportedMsg : List Char := "Unsupported or unrecognized format".data
def destFailMsg : List Char := "Cannot create extraction directory".data
def checksumFailMsg : List Char := "Cannot read backup file".data
def FORMAT_UNKNOWN : List Char := "unknown".data

structure PipelineOut where
  err : Option (List Char)
  md : ExtractionMetadata
  written : List TarMember
  fmt : List Char
deriving DecidableEq, Repr

/-- The body of `test_extraction` up to (but not including) the
`except` clause: pre-flight checks, format detection, destination
setup, archive checksum, then the per-format member loop.  `err = some e`
models an exception `e` escaping to the enclosing handler, carrying the
metadata accumulated up to that point. -/
def runPipeline (root : List (List Char)) (inp : ArchiveInput) : PipelineOut :=
  if inp.present = false then ⟨some notFoundMsg, emptyMetadata, [], FORMAT_UNKNOWN⟩
  else if inp.isFile = false then ⟨some notAFileMsg, emptyMetadata, [], FORMAT_UNKNOWN⟩
  else
    match inp.format with
    | none => ⟨some unsupportedMsg, emptyMetadata, [], FORMAT_UNKNOWN⟩
    | some fmt =>
      if inp.destOk = false then ⟨some destFailMsg, emptyMetadata, [], fmt⟩
      else if inp.checksumOk = false then ⟨some checksumFailMsg, emptyMetadata, [], fmt⟩
      else
        let r := extractLoopI root inp.interruptAt 0 (initMetadata inp.members) [] inp.members
        ⟨r.1, r.2.1, r.2.2, fmt⟩

structure ExtractionResult where
  success : Bool
  metadata : ExtractionMetadata
  format_detected : List Char
  file_count : Nat
  total_size : Nat
  error_message : Option (List Char)
deriving DecidableEq, Repr

/-- `ExtractionEngine.test_extraction`: run the pipeline; on success
build a `success := true` result from the accumulated metadata, on any
escaping exception build the best-effort `success := false` result with
the message appended to `metadata.errors` and the partial counts. -/
def test_extraction (root : List (List Char)) (inp : ArchiveInput) : ExtractionResult :=
  let p := runPipeline root inp
  match p.err with
  | none =>
    { success := true
      metadata := p.md
      format_detected := p.fmt
      file_count := p.md.extracted_files
      total_size := p.md.extracted_size
      error_message := none }
  | some e =>
    { success := false
      metadata := { p.md with errors := p.md.errors ++ [e] }
      format_detected := p.fmt
      file_count := p.md.extracted_files
      total_size := p.md.extracted_size
      error_message := some e }

/-! ## Comparison engine (`comparison_engine.py`)

The two directory trees are modelled after collection
(`ComparisonEngine.collect_files`): an association list from relative
path to the on-disk entry, with a `readable` flag per entry recording
whether `get_file_metadata` (stat + streamed checksum) succeeds for it.
Interpolated values inside human-readable `details` strings are elided;
the claims only depend on the difference kinds and list shapes.  The
worker pool is modelled by iterating the common paths in a fixed order:
every claim below is about counts and membership, which the source
documents as independent of completion order. -/

inductive ComparisonMode
  | quick | full | metadata_only | checksum_only
deriving DecidableEq, Repr

inductive DifferenceType
  | missing_source | missing_target | size_mismatch | content_mismatch
  | metadata_mismatch | permission_mismatch | timestamp_mismatch | type_mismatch
deriving DecidableEq, Repr

structure FileMetadataM where
  size : Nat
  mtime : ℚ
  mode : Nat
  is_file : Bool
  is_dir : Bool
  checksum : Option (List Char)
deriving DecidableEq, Repr

structure FileDifference where
  path : List Char
  difference_type : DifferenceType
  details : List Char
deriving DecidableEq, Repr

/-- `stat.S_IMODE(m)` = `m & 0o7777`; since `0o7777 = 2^12 - 1` this is
`m % 2^12`. -/
def S_IMODE (m : Nat) : Nat := m % 4096

/-- `ComparisonEngine.compare_metadata`: type mismatch short-circuits;
then size, content (only when both checksums are present and differ),
and in `full` mode permissions and timestamps with a 1-second
tolerance. -/
def compare_metadata (path : List Char) (s t : FileMetadataM) (mode : ComparisonMode) :
    List FileDifference :=
  if s.is_file ≠ t.is_file ∨ s.is_dir ≠ t.is_dir then
    [⟨path, .type_mismatch, "Type mismatch".data⟩]
  else
    (if s.size ≠ t.size then [⟨path, .size_mismatch, "Size mismatch".data⟩] else [])
    ++ (if (mode = .full ∨ mode = .checksum_only) ∧ s.is_file = true ∧ t.is_file = true ∧
          s.checksum.isSome = true ∧ t.checksum.isSome = true ∧ s.checksum ≠ t.checksum then
          [⟨path, .content_mismatch, "Content mismatch: checksums differ".data⟩]
        else [])
    ++ (if mode = .full then
          (if S_IMODE s.mode ≠ S_IMODE t.mode then
            [⟨path, .permission_mismatch, "Permission mismatch".data⟩]
          else [])
          ++ (if 1 < |s.mtime - t.mtime| then
                [⟨path, .timestamp_mismatch, "Timestamp mismatch".data⟩]
              else [])
        else [])

/-- One on-disk entry as the comparison engine can observe it. -/
structure FSEntry where
  size : Nat
  mtime : ℚ
  mode : Nat
  is_file : Bool
  is_dir : Bool
  /-- SHA-256 of the content, when the entry is a regular file -/
  hash : List Char
  /-- whether stat / checksum streaming succeeds for this entry -/
  readable : Bool
deriving DecidableEq, Repr

/-- `ComparisonEngine.get_file_metadata` on a readable entry: the stat
fields, plus the checksum exactly when it was requested and the entry is
a regular file. -/
def get_file_metadata (e : FSEntry) (include_checksum : Bool) : FileMetadataM :=
  { size := e.size, mtime := e.mtime, mode := e.mode
    is_file := e.is_file, is_dir := e.is_dir
    checksum := if include_checksum && e.is_file then some e.hash else none }

def comparisonErrorMsg : List Char := "Comparison error".data

/-- `ComparisonEngine.compare_file_pair`: fetch both sides' metadata
(checksums only in `full`/`checksum_only` mode), then compare unless the
mode is `quick` and the sizes already match.  Any exception in the body
is caught and turned into a single synthetic content-mismatch difference
with zero bytes counted. -/
def compare_file_pair (relative_path : List Char) (src tgt : FSEntry)
    (mode : ComparisonMode) : List FileDifference × Nat :=
  if src.readable && tgt.readable then
    let include_checksum : Bool :=
      if mode = .full ∨ mode = .checksum_only then true else false
    let sm := get_file_metadata src include_checksum
    let tm := get_file_metadata tgt include_checksum
    let diffs :=
      if mode ≠ .quick ∨ sm.size ≠ tm.size then compare_metadata relative_path sm tm mode
      else []
    (diffs, sm.size)
  else
    ([⟨relative_path, .content_mismatch, comparisonErrorMsg⟩], 0)

def keysOf (t : List (List Char × FSEntry)) : List (List Char) :=
  t.map Prod.fst

def lookupTree (k : List Char) : List (List Char × FSEntry) → Option FSEntry
  | [] => none
  | (k', e) :: rest => if k' = k then some e else lookupTree k rest

structure ComparisonResultM where
  comparison_mode : ComparisonMode
  total_files_processed : Nat
  files_identical : Nat
  files_different : Nat
  files_missing_source : Nat
  files_missing_target : Nat
  differences : List FileDifference
  total_bytes_processed : Nat
  errors : List (List Char)
deriving DecidableEq, Repr

def missingTargetMsg : List Char := "File exists in source but not in target".data
def missingSourceMsg : List Char := "File exists in target but not in source".data

/-- Processing of one completed pair task inside `content_comparison`:
extend the difference list, add the source-side bytes, and count the
pair as different (at least one difference) or identical (none). -/
def pairStep (src tgt : List (List Char × FSEntry)) (mode : ComparisonMode)
    (r : ComparisonResultM) (k : List Char) : ComparisonResultM :=
  match lookupTree k src, lookupTree k tgt with
  | some se, some te =>
    let p := compare_file_pair k se te mode
    { r with
      differences := r.differences ++ p.1
      total_bytes_processed := r.total_bytes_processed + p.2
      files_different := r.files_different + (if p.1 = [] then 0 else 1)
      files_identical := r.files_identical + (if p.1 = [] then 1 else 0) }
  | _, _ => r

/-- The differences one common path contributes: the pair-task result
for the two entries found under it. -/
def pairDiffs (src tgt : List (List Char × FSEntry)) (mode : ComparisonMode)
    (k : List Char) : List FileDifference :=
  match lookupTree k src, lookupTree k tgt with
  | some se, some te => (compare_file_pair k se te mode).1
  | _, _ => []

/-- `ComparisonEngine.content_comparison` on two collected trees (the
runs that pass the pre-flight existence checks): set-difference the key
sets into missing-path differences, then fold the pair comparison over
the common paths, and finally record the number of distinct paths seen
(`len(set(source) | set(target))`). -/
def content_comparison (src tgt : List (List Char × FSEntry)) (mode : ComparisonMode) :
    ComparisonResultM :=
  let srcKeys := keysOf src
  let tgtKeys := keysOf tgt
  let missingInTarget := srcKeys.filter (fun k => decide (k ∉ tgtKeys))
  let missingInSource := tgtKeys.filter (fun k => decide (k ∉ srcKeys))
  let common := srcKeys.filter (fun k => decide (k ∈ tgtKeys))
  let base : ComparisonResultM :=
    { comparison_mode := mode
      total_files_processed := 0
      files_identical := 0
      files_different := 0
      files_missing_source := missingInSource.length
      files_missing_target := missingInTarget.length
      differences :=
        missingInTarget.map (fun p => ⟨p, .missing_target, missingTargetMsg⟩)
        ++ missingInSource.map (fun p => ⟨p, .missing_source, missingSourceMsg⟩)
      total_bytes_processed := 0
      errors := [] }
  let afterPairs := common.foldl (pairStep src tgt mode) base
  { afterPairs with
    total_files_processed := ((srcKeys ++ tgtKeys).toFinset).card }

/-- `ComparisonResult.success_rate`: percentage of identical files, with
the explicit vacuous-success branch for an empty run. -/
def success_rate (r : ComparisonResultM) : ℚ :=
  if r.total_files_processed = 0 then 100
  else ((r.files_identical : ℚ) / (r.total_files_processed : ℚ)) * 100

/-! ## Progress tracker (`progress_tracker.py`)

Timestamps (`time.time()` values) are an explicit rational parameter of
each operation; the mutable tracker is a state value threaded through
the operations.  Sub-trackers and the display sinks are not needed by
the claims and are omitted; `_notify_update` only renders, it never
writes tracker state other than `_last_console_length`. -/

def MAX_SAMPLES : Nat := 10

structure TrackerState where
  total_items : Nat
  current : Nat
  start_time : Option ℚ
  last_update_time : ℚ
  update_interval : ℚ
  /-- `_throughput_samples`: the ring buffer of `(timestamp, items)` -/
  samples : List (ℚ × Nat)
  is_finished : Bool
  custom_message : List Char
deriving DecidableEq, Repr

def initTracker (total_items : Nat) (update_interval : ℚ) : TrackerState :=
  { total_items := total_items, current := 0, start_time := none
    last_update_time := 0, update_interval := update_interval
    samples := [], is_finished := false, custom_message := [] }

/-- `ProgressTracker.start` at time `t`: idempotent; seeds the sample
buffer with `(start_time, 0)`. -/
def startOp (s : TrackerState) (t : ℚ) : TrackerState :=
  if s.start_time.isSome then s
  else { s with start_time := some t, last_update_time := t, samples := [(t, 0)] }

/-- Append a sample and pop the oldest when the buffer exceeds
`_max_samples`. -/
def pushSample (samples : List (ℚ × Nat)) (t : ℚ) (cur : Nat) : List (ℚ × Nat) :=
  let smp := samples ++ [(t, cur)]
  if MAX_SAMPLES < smp.length then smp.drop 1 else smp

/-- `ProgressTracker.update` at time `t`: auto-start, clamp the counter
to the total, record the message and the sample, and refresh the
rate-limit timestamp when the interval elapsed. -/
def updateOp (s : TrackerState) (t : ℚ) (items_processed : Nat) (msg : List Char) :
    TrackerState :=
  let s0 := if s.start_time.isNone then startOp s t else s
  let cur := min (s0.current + items_processed) s0.total_items
  let s1 :=
    { s0 with
      current := cur
      custom_message := if msg = [] then s0.custom_message else msg
      samples := pushSample s0.samples t cur }
  if s1.update_interval ≤ t - s1.last_update_time then
    { s1 with last_update_time := t }
  else s1

/-- `ProgressTracker.set_current` at time `t`: absolute position clamped
to `[0, total]` (the argument is a count, so the lower clamp is
implicit). -/
def setCurrentOp (s : TrackerState) (t : ℚ) (current_item : Nat) (msg : List Char) :
    TrackerState :=
  let s0 := if s.start_time.isNone then startOp s t else s
  let cur := min current_item s0.total_items
  let s1 :=
    { s0 with
      current := cur
      custom_message := if msg = [] then s0.custom_message else msg
      samples := pushSample s0.samples t cur }
  if s1.update_interval ≤ t - s1.last_update_time then
    { s1 with last_update_time := t }
  else s1

/-- `ProgressTracker.finish`: returns immediately when already finished,
otherwise forces the counter to the total and sets the terminal flag. -/
def finishOp (s : TrackerState) (msg : List Char) : TrackerState :=
  if s.is_finished then s
  else { s with current := s.total_items, custom_message := msg, is_finished := true }

/-- `ProgressTracker._calculate_eta`: two-point rate over the last three
retained samples; `none` when fewer than 2 samples, nothing processed
yet, or the window rate is non-positive. -/
def calculate_eta (s : TrackerState) : Option ℚ :=
  if s.samples.length < 2 ∨ s.current = 0 then none
  else
    let recent := s.samples.drop (s.samples.length - 3)
    if recent.length < 2 then none
    else
      match recent.head?, recent.getLast? with
      | some a, some b =>
        let tdiff := b.1 - a.1
        let idiff : ℤ := (b.2 : ℤ) - (a.2 : ℤ)
        if tdiff ≤ 0 ∨ idiff ≤ 0 then none
        else
          let rate := (idiff : ℚ) / tdiff
          if 0 < rate then
            some (((s.total_items : ℚ) - (s.current : ℚ)) / rate)
          else none
      | _, _ => none

/-- `ProgressTracker._calculate_throughput`: same two-point window; only
a non-positive time span yields `none` (the rate itself may be ≤ 0). -/
def calculate_throughput (s : TrackerState) : Option ℚ :=
  if s.samples.length < 2 then none
  else
    let recent := s.samples.drop (s.samples.length - 3)
    if recent.length < 2 then none
    else
      match recent.head?, recent.getLast? with
      | some a, some b =>
        let tdiff := b.1 - a.1
        if tdiff ≤ 0 then none
        else some ((((b.2 : ℤ) - (a.2 : ℤ) : ℤ) : ℚ) / tdiff)
      | _, _ => none

structure ProgressReportM where
  current : Nat
  total : Nat
  percentage : ℚ
  elapsed_time : ℚ
  eta : Option ℚ
  throughput : Option ℚ
  custom_message : List Char
deriving DecidableEq, Repr

/-- `ProgressTracker.get_report` at wall-clock time `now`. -/
def get_report (s : TrackerState) (now : ℚ) : ProgressReportM :=
  { current := s.current
    total := s.total_items
    percentage :=
      if 0 < s.total_items then (s.current : ℚ) / (s.total_items : ℚ) * 100 else 0
    elapsed_time :=
      match s.start_time with
      | some st => now - st
      | none => 0
    eta := calculate_eta s
    throughput := calculate_throughput s
    custom_message := s.custom_message }

/-- Modelled from the spec: the spec derives throughput from the
oldest and the newest of *all* retained ring-buffer samples; this
definition follows the spec's words, to be compared against the
source's `calculate_throughput`. -/
def spec_throughput (s : TrackerState) : Option ℚ :=
  if s.samples.length < 2 then none
  else
    match s.samples.head?, s.samples.getLast? with
    | some a, some b =>
      let tdiff := b.1 - a.1
      if tdiff ≤ 0 then none
      else some ((((b.2 : ℤ) - (a.2 : ℤ) : ℤ) : ℚ) / tdiff)
    | _, _ => none

/-- The tracker restricted to the trailing three-sample window the
source actually computes its rates from (`samples[-3:]`). -/
def lastWindow (s : TrackerState) : TrackerState :=
  { s with samples := s.samples.drop (s.samples.length - 3) }

/-- Modelled from the spec: ETA from the oldest/newest two-point rate
over the whole retained buffer, undefined when fewer than 2 samples
exist or that rate is non-positive. -/
def spec_eta (s : TrackerState) : Option ℚ :=
  match spec_throughput s with
  | none => none
  | some rate =>
    if 0 < rate then some (((s.total_items : ℚ) - (s.current : ℚ)) / rate)
    else none

/-! ## Concrete fixtures used by witness and counterexample theorems -/

def demoRoot : List (List Char) := [['t', 'm', 'p']]

def goodMember : TarMember := ⟨"a.txt".data, 5, true, true⟩
def evilMember : TarMember := ⟨"../../etc/passwd".data, 5, true, true⟩
def bigMember : TarMember := ⟨"big.bin".data, 10 * 1024 * 1024 * 1024 + 1, true, true⟩
def failMember : TarMember := ⟨"b.txt".data, 7, true, false⟩
def dotdotMember : TarMember := ⟨"foo..bar".data, 1, true, true⟩

def demoMembers : List TarMember :=
  [goodMember, evilMember, bigMember, failMember, dotdotMember]

def demoArchive : ArchiveInput :=
  { present := true, isFile := true, format := some "tar".data, destOk := true
    checksumOk := true, members := demoMembers, interruptAt := none }

def missingArchive : ArchiveInput :=
  { present := false, isFile := true, format := none, destOk := true
    checksumOk := true, members := [], interruptAt := none }

def interruptedArchive : ArchiveInput :=
  { demoArchive with interruptAt := some 1 }

def entryA : FSEntry := ⟨5, 0, 420, true, false, "h1".data, true⟩
def entryB : FSEntry := ⟨5, 0, 420, true, false, "h2".data, true⟩
def entryUnreadable : FSEntry := ⟨5, 0, 420, true, false, "h1".data, false⟩

def treeA : List (List Char × FSEntry) := [("a.txt".data, entryA)]
def treeB : List (List Char × FSEntry) := [("a.txt".data, entryB)]
def treeBad : List (List Char × FSEntry) := [("a.txt".data, entryUnreadable)]
def treeTwo : List (List Char × FSEntry) :=
  [("a.txt".data, entryA), ("b.txt".data, entryB)]

def c3state : TrackerState :=
  { total_items := 200, current := 100, start_time := some 0
    last_update_time := 3, update_interval := 1 / 10
    samples := [(0, 0), (1, 100), (2, 100), (3, 100)]
    is_finished := false, custom_message := [] }

def c8state : TrackerState :=
  { total_items := 10, current := 4, start_time := some 0
    last_update_time := 1, update_interval := 1 / 10
    samples := [(0, 0), (1, 4)]
    is_finished := false, custom_message := [] }

def c10state : TrackerState :=
  { total_items := 200, current := 90, start_time := some 0
    last_update_time := 9, update_interval := 1 / 10
    samples := [(0, 0), (1, 10), (2, 20), (3, 30), (4, 40), (5, 50), (6, 60),
      (7, 70), (8, 80), (9, 90)]
    is_finished := false, custom_message := [] }

/-! ## Lemmas: character-list strings and path splitting -/

theorem startsWithChars_nil_right (hay : List Char) : startsWithChars hay [] = true := by
  cases hay <;> rfl

theorem startsWithChars_nil_left {needle : List Char} :
    startsWithChars [] needle = true → needle = [] := by
  cases needle with
  | nil => intro; rfl
  | cons b bs => intro h; exact absurd h (by simp [startsWithChars])

theorem containsChars_nil_needle (hay : List Char) : containsChars hay [] = true := by
  cases hay with
  | nil => rfl
  | cons c rest => simp [containsChars, startsWithChars_nil_right]

theorem startsWithChars_append {hay needle : List Char} (ys : List Char)
    (h : startsWithChars hay needle = true) :
    startsWithChars (hay ++ ys) needle = true := by
  induction hay generalizing needle with
  | nil =>
    have := startsWithChars_nil_left h
    subst this
    exact startsWithChars_nil_right _
  | cons a as ih =>
    cases needle with
    | nil => exact startsWithChars_nil_right _
    | cons b bs =>
      simp only [startsWithChars, Bool.and_eq_true] at h ⊢
      exact ⟨h.1, ih h.2⟩

theorem containsChars_append_left {hay needle : List Char} (ys : List Char)
    (h : containsChars hay needle = true) :
    containsChars (hay ++ ys) needle = true := by
  induction hay with
  | nil =>
    have := startsWithChars_nil_left (by simpa [containsChars] using h)
    subst this
    exact containsChars_nil_needle _
  | cons a as ih =>
    simp only [containsChars, Bool.or_eq_true] at h
    rcases h with h | h
    · cases ys with
      | nil => simpa [containsChars] using Or.inl h
      | cons y ys' =>
        simp only [List.cons_append, containsChars, Bool.or_eq_true]
        exact Or.inl (startsWithChars_append _ h)
    · simp only [List.cons_append, containsChars, Bool.or_eq_true]
      exact Or.inr (ih h)

theorem containsChars_tail {c : Char} {rest needle : List Char}
    (h : containsChars rest needle = true) :
    containsChars (c :: rest) needle = true := by
  simp only [containsChars, Bool.or_eq_true]
  exact Or.inr h

theorem splitSlash_ne_nil (cs : List Char) : splitSlash cs ≠ [] := by
  cases cs with
  | nil => simp [splitSlash]
  | cons c rest =>
    simp only [splitSlash]
    split
    · simp
    · split <;> simp_all

theorem splitSlash_head_append :
    ∀ (cs : List Char) (h : List Char) (t : List (List Char)),
    splitSlash cs = h :: t → ∃ ys, cs = h ++ ys := by
  intro cs
  induction cs with
  | nil =>
    intro h t hs
    simp only [splitSlash] at hs
    cases hs
    exact ⟨[], rfl⟩
  | cons c rest ih =>
    intro h t hs
    simp only [splitSlash] at hs
    by_cases hc : c = '/'
    · rw [if_pos hc] at hs
      cases hs
      exact ⟨c :: rest, rfl⟩
    · rw [if_neg hc] at hs
      rcases hr : splitSlash rest with _ | ⟨h', t'⟩
      · exact absurd hr (splitSlash_ne_nil rest)
      · rw [hr] at hs
        cases hs
        obtain ⟨ys, hys⟩ := ih _ _ hr
        exact ⟨ys, by simp [hys]⟩

/-- Every component produced by splitting on `/` is a substring of the
split string: a `..` inside some component is a `..` inside the whole
path. -/
theorem mem_splitSlash_contains {needle : List Char} :
    ∀ {cs seg : List Char}, seg ∈ splitSlash cs →
    containsChars seg needle = true → containsChars cs needle = true := by
  intro cs
  induction cs with
  | nil =>
    intro seg hm hc
    simp only [splitSlash, List.mem_singleton] at hm
    subst hm
    exact hc
  | cons c rest ih =>
    intro seg hm hc
    simp only [splitSlash] at hm
    by_cases hcsl : c = '/'
    · rw [if_pos hcsl] at hm
      rcases List.mem_cons.mp hm with h | h
      · subst h
        have := startsWithChars_nil_left (by simpa [containsChars] using hc)
        subst this
        exact containsChars_nil_needle _
      · exact containsChars_tail (ih h hc)
    · rw [if_neg hcsl] at hm
      rcases hr : splitSlash rest with _ | ⟨h', t'⟩
      · exact absurd hr (splitSlash_ne_nil rest)
      · rw [hr] at hm
        rcases List.mem_cons.mp hm with h | h
        · subst h
          obtain ⟨ys, hys⟩ := splitSlash_head_append rest h' t' hr
          have : containsChars ((c :: h') ++ ys) needle = true :=
            containsChars_append_left ys hc
          rw [hys]
          simpa using this
        · exact containsChars_tail (ih (hr ▸ List.mem_cons_of_mem h' h) hc)

/-! ## Lemmas: path-security validation -/

theorem validate_true_descendant {memberPath : List Char} {root : List (List Char)}
    (h : validate_path_security memberPath root = true) :
    isDescendantOf (resolveAbs root (normpath memberPath)) root = true := by
  unfold validate_path_security at h
  by_cases hc :
      (containsChars (normpath memberPath) ['.', '.'] ||
        startsWithChars (normpath memberPath) ['/']) = true
  · rw [if_pos hc] at h
    exact absurd h (by simp)
  · rw [if_neg hc] at h
    exact h

theorem validate_false_of_contains {memberPath : List Char} (root : List (List Char))
    (h : containsChars (normpath memberPath) ['.', '.'] = true) :
    validate_path_security memberPath root = false := by
  unfold validate_path_security
  rw [if_pos (by simp [h])]

theorem validate_false_of_abs {memberPath : List Char} (root : List (List Char))
    (h : startsWithChars (normpath memberPath) ['/'] = true) :
    validate_path_security memberPath root = false := by
  unfold validate_path_security
  rw [if_pos (by simp [h])]

theorem validate_false_of_not_descendant {memberPath : List Char} {root : List (List Char)}
    (h : isDescendantOf (resolveAbs root (normpath memberPath)) root = false) :
    validate_path_security memberPath root = false := by
  unfold validate_path_security
  by_cases hc :
      (containsChars (normpath memberPath) ['.', '.'] ||
        startsWithChars (normpath memberPath) ['/']) = true
  · rw [if_pos hc]
  · rw [if_neg hc]
    exact h

theorem validate_false_of_parent_seg {memberPath : List Char} (root : List (List Char))
    (h : ['.', '.'] ∈ splitSlash (normpath memberPath)) :
    validate_path_security memberPath root = false :=
  validate_false_of_contains root (mem_splitSlash_contains h rfl)

/-! ## Lemmas: the extraction member loop -/

theorem extractLoopI_none_err (root : List (List Char)) :
    ∀ (ms : List TarMember) (i : Nat) (md : ExtractionMetadata) (w : List TarMember),
    (extractLoopI root none i md w ms).1 = none := by
  intro ms
  induction ms with
  | nil => intro i md w; rfl
  | cons m rest ih =>
    intro i md w
    rw [extractLoopI]
    rw [if_neg (by simp)]
    split
    · exact ih _ _ _
    · split
      · exact ih _ _ _
      · split
        · exact ih _ _ _
        · exact ih _ _ _

theorem extractLoopI_none_written (root : List (List Char)) :
    ∀ (ms : List TarMember) (i : Nat) (md : ExtractionMetadata) (w : List TarMember),
    (extractLoopI root none i md w ms).2.2 = w ++ ms.filter (extractedPred root) := by
  intro ms
  induction ms with
  | nil => intro i md w; simp [extractLoopI]
  | cons m rest ih =>
    intro i md w
    rw [extractLoopI]
    rw [if_neg (by simp)]
    by_cases hv : validate_path_security m.name root = false
    · rw [if_pos hv]
      rw [ih]
      have hp : extractedPred root m = false := by
        simp [extractedPred, hv]
      simp [List.filter_cons, hp]
    · rw [if_neg hv]
      have hv' : validate_path_security m.name root = true := by
        revert hv; cases validate_path_security m.name root <;> simp
      by_cases hs : MAX_EXTRACT_SIZE < m.size
      · rw [if_pos hs]
        rw [ih]
        have hp : extractedPred root m = false := by
          simp [extractedPred, hv', decide_eq_true_eq]
          omega
        simp [List.filter_cons, hp]
      · rw [if_neg hs]
        by_cases ho : m.extractOk = true
        · rw [if_pos ho]
          rw [ih]
          have hp : extractedPred root m = true := by
            simp [extractedPred, hv', ho, decide_eq_true_eq]
            omega
          simp [List.filter_cons, hp]
        · rw [if_neg ho]
          rw [ih]
          have hof : m.extractOk = false := by
            simpa using ho
          have hp : extractedPred root m = false := by
            simp [extractedPred, hof]
          simp [List.filter_cons, hp]

theorem extractLoopI_none_metadata (root : List (List Char)) :
    ∀ (ms : List TarMember) (i : Nat) (md : ExtractionMetadata) (w : List TarMember),
    (extractLoopI root none i md w ms).2.1 =
      { md with
        extracted_files := md.extracted_files + (ms.filter (extractedPred root)).length
        extracted_size :=
          md.extracted_size + ((ms.filter (extractedPred root)).map writtenBytes).sum
        warnings := md.warnings ++ ms.filterMap (warnOf root)
        errors := md.errors ++ ms.filterMap (errOf root) } := by
  intro ms
  induction ms with
  | nil => intro i md w; simp [extractLoopI]
  | cons m rest ih =>
    intro i md w
    rw [extractLoopI]
    rw [if_neg (by simp)]
    by_cases hv : validate_path_security m.name root = false
    · rw [if_pos hv]
      rw [ih]
      have hp : extractedPred root m = false := by
        simp [extractedPred, hv]
      simp [List.filter_cons, List.filterMap_cons, hp, warnOf, errOf, hv]
    · rw [if_neg hv]
      have hv' : validate_path_security m.name root = true := by
        revert hv; cases validate_path_security m.name root <;> simp
      by_cases hs : MAX_EXTRACT_SIZE < m.size
      · rw [if_pos hs]
        rw [ih]
        have hp : extractedPred root m = false := by
          simp [extractedPred, hv', decide_eq_true_eq]
          omega
        simp [List.filter_cons, List.filterMap_cons, hp, warnOf, errOf, hv', hs]
      · rw [if_neg hs]
        by_cases ho : m.extractOk = true
        · rw [if_pos ho]
          rw [ih]
          have hp : extractedPred root m = true := by
            simp [extractedPred, hv', ho, decide_eq_true_eq]
            omega
          simp [List.filter_cons, List.filterMap_cons, hp, warnOf, errOf, hv', hs, ho,
            writtenBytes, Nat.add_assoc]
          omega
        · rw [if_neg ho]
          rw [ih]
          have hof : m.extractOk = false := by
            simpa using ho
          have hp : extractedPred root m = false := by
            simp [extractedPred, hof]
          have hsz : decide (m.size ≤ MAX_EXTRACT_SIZE) = true := by
            simp [decide_eq_true_eq]
            omega
          simp [List.filter_cons, List.filterMap_cons, hp, warnOf, errOf, hv', hs, hof, hsz]

/-- Interrupting the loop at the `n`-th member boundary aborts with the
interruption error, leaving exactly the state an uninterrupted run over
the first `n` members would have produced. -/
theorem extractLoopI_interrupt (root : List (List Char)) :
    ∀ (ms : List TarMember) (n i : Nat) (md : ExtractionMetadata) (w : List TarMember),
    n < ms.length →
    extractLoopI root (some (i + n)) i md w ms =
      (some interruptedMsg,
       (extractLoopI root none i md w (ms.take n)).2.1,
       (extractLoopI root none i md w (ms.take n)).2.2) := by
  intro ms
  induction ms with
  | nil =>
    intro n i md w h
    simp at h
  | cons m rest ih =>
    intro n i md w h
    cases n with
    | zero =>
      rw [extractLoopI]
      rw [if_pos (by simp)]
      simp [extractLoopI]
    | succ k =>
      have hlt : k < rest.length := by
        simpa using h
      have harith : i + (k + 1) = (i + 1) + k := by omega
      rw [List.take_succ_cons]
      rw [extractLoopI]
      conv_rhs => rw [extractLoopI]
      rw [if_neg (show ¬ (some (i + (k + 1)) : Option Nat) = some i from by simp)]
      rw [if_neg (show ¬ (none : Option Nat) = some i from by simp)]
      by_cases h1 : validate_path_security m.name root = false
      · rw [if_pos h1, if_pos h1, harith]
        exact ih k (i + 1) _ _ hlt
      · rw [if_neg h1, if_neg h1]
        by_cases h2 : MAX_EXTRACT_SIZE < m.size
        · rw [if_pos h2, if_pos h2, harith]
          exact ih k (i + 1) _ _ hlt
        · rw [if_neg h2, if_neg h2]
          by_cases h3 : m.extractOk = true
          · rw [if_pos h3, if_pos h3, harith]
            exact ih k (i + 1) _ _ hlt
          · rw [if_neg h3, if_neg h3, harith]
            exact ih k (i + 1) _ _ hlt

/-! ## Lemmas: the comparison engine -/

theorem lookupTree_isSome_of_mem {k : List Char} :
    ∀ {t : List (List Char × FSEntry)}, k ∈ keysOf t → (lookupTree k t).isSome = true := by
  intro t
  induction t with
  | nil =>
    intro h
    simp [keysOf] at h
  | cons p rest ih =>
    intro h
    simp only [lookupTree]
    by_cases hp : p.1 = k
    · rw [if_pos hp]
      rfl
    · rw [if_neg hp]
      apply ih
      simp only [keysOf, List.map_cons, List.mem_cons] at h
      rcases h with h | h
      · exact absurd h.symm hp
      · exact h

/-- The pair fold never touches the error list, the missing counters,
the mode, or the processed total. -/
theorem foldl_pairStep_invariants (src tgt : List (List Char × FSEntry))
    (mode : ComparisonMode) :
    ∀ (ks : List (List Char)) (r : ComparisonResultM),
    (ks.foldl (pairStep src tgt mode) r).errors = r.errors ∧
    (ks.foldl (pairStep src tgt mode) r).files_missing_source = r.files_missing_source ∧
    (ks.foldl (pairStep src tgt mode) r).files_missing_target = r.files_missing_target ∧
    (ks.foldl (pairStep src tgt mode) r).comparison_mode = r.comparison_mode ∧
    (ks.foldl (pairStep src tgt mode) r).total_files_processed = r.total_files_processed := by
  intro ks
  induction ks with
  | nil => intro r; exact ⟨rfl, rfl, rfl, rfl, rfl⟩
  | cons k rest ih =>
    intro r
    rw [List.foldl_cons]
    have h := ih (pairStep src tgt mode r k)
    have hp : (pairStep src tgt mode r k).errors = r.errors ∧
        (pairStep src tgt mode r k).files_missing_source = r.files_missing_source ∧
        (pairStep src tgt mode r k).files_missing_target = r.files_missing_target ∧
        (pairStep src tgt mode r k).comparison_mode = r.comparison_mode ∧
        (pairStep src tgt mode r k).total_files_processed = r.total_files_processed := by
      unfold pairStep
      rcases lookupTree k src with _ | se
      · exact ⟨rfl, rfl, rfl, rfl, rfl⟩
      · rcases lookupTree k tgt with _ | te
        · exact ⟨rfl, rfl, rfl, rfl, rfl⟩
        · exact ⟨rfl, rfl, rfl, rfl, rfl⟩
    exact ⟨h.1.trans hp.1, h.2.1.trans hp.2.1, h.2.2.1.trans hp.2.2.1,
      h.2.2.2.1.trans hp.2.2.2.1, h.2.2.2.2.trans hp.2.2.2.2⟩

/-- Every common path is counted exactly once, as identical or as
different. -/
theorem foldl_pairStep_counts (src tgt : List (List Char × FSEntry))
    (mode : ComparisonMode) :
    ∀ (ks : List (List Char)) (r : ComparisonResultM),
    (∀ k ∈ ks, (lookupTree k src).isSome = true ∧ (lookupTree k tgt).isSome = true) →
    (ks.foldl (pairStep src tgt mode) r).files_identical +
      (ks.foldl (pairStep src tgt mode) r).files_different =
      r.files_identical + r.files_different + ks.length := by
  intro ks
  induction ks with
  | nil =>
    intro r _
    simp
  | cons k rest ih =>
    intro r h
    rw [List.foldl_cons]
    have hk := h k (List.mem_cons_self k rest)
    obtain ⟨se, hs⟩ := Option.isSome_iff_exists.mp hk.1
    obtain ⟨te, ht⟩ := Option.isSome_iff_exists.mp hk.2
    have hstep : (pairStep src tgt mode r k).files_identical +
        (pairStep src tgt mode r k).files_different =
        r.files_identical + r.files_different + 1 := by
      unfold pairStep
      rw [hs, ht]
      by_cases hd : (compare_file_pair k se te mode).1 = []
      · simp [hd]
        omega
      · simp [hd]
        omega
    have := ih (pairStep src tgt mode r k) (fun k' hk' => h k' (List.mem_cons_of_mem k hk'))
    rw [this, hstep]
    simp [List.length_cons]
    omega

/-- The fold appends exactly each common path's pair differences, in
order. -/
theorem foldl_pairStep_differences (src tgt : List (List Char × FSEntry))
    (mode : ComparisonMode) :
    ∀ (ks : List (List Char)) (r : ComparisonResultM),
    (ks.foldl (pairStep src tgt mode) r).differences =
      r.differences ++ (ks.map (pairDiffs src tgt mode)).flatten := by
  intro ks
  induction ks with
  | nil =>
    intro r
    simp
  | cons k rest ih =>
    intro r
    rw [List.foldl_cons, ih]
    have hstep : (pairStep src tgt mode r k).differences =
        r.differences ++ pairDiffs src tgt mode k := by
      unfold pairStep pairDiffs
      rcases lookupTree k src with _ | se
      · simp
      · rcases lookupTree k tgt with _ | te
        · simp
        · rfl
    rw [hstep]
    simp [List.flatten, List.append_assoc]

/-- When every common pair compares clean, each one is counted as
identical. -/
theorem foldl_pairStep_identical (src tgt : List (List Char × FSEntry))
    (mode : ComparisonMode) :
    ∀ (ks : List (List Char)) (r : ComparisonResultM),
    (∀ k ∈ ks, pairDiffs src tgt mode k = [] ∧
      (lookupTree k src).isSome = true ∧ (lookupTree k tgt).isSome = true) →
    (ks.foldl (pairStep src tgt mode) r).files_identical =
      r.files_identical + ks.length := by
  intro ks
  induction ks with
  | nil =>
    intro r _
    simp
  | cons k rest ih =>
    intro r h
    rw [List.foldl_cons]
    have hk := h k (List.mem_cons_self k rest)
    obtain ⟨se, hs⟩ := Option.isSome_iff_exists.mp hk.2.1
    obtain ⟨te, ht⟩ := Option.isSome_iff_exists.mp hk.2.2
    have hd : (compare_file_pair k se te mode).1 = [] := by
      have := hk.1
      unfold pairDiffs at this
      rw [hs, ht] at this
      exact this
    have hstep : (pairStep src tgt mode r k).files_identical =
        r.files_identical + 1 := by
      unfold pairStep
      rw [hs, ht]
      simp [hd]
    rw [ih (pairStep src tgt mode r k) (fun k' hk' => h k' (List.mem_cons_of_mem k hk')),
      hstep]
    simp [List.length_cons]
    omega

theorem compare_metadata_self (path : List Char) (m : FileMetadataM)
    (mode : ComparisonMode) : compare_metadata path m m mode = [] := by
  unfold compare_metadata
  simp

theorem compare_file_pair_self (k : List Char) (e : FSEntry) (mode : ComparisonMode)
    (hr : e.readable = true) : compare_file_pair k e e mode = ([], e.size) := by
  unfold compare_file_pair
  rw [hr]
  simp [compare_metadata_self, get_file_metadata]

theorem lookupTree_mem {k : List Char} {e : FSEntry} :
    ∀ {t : List (List Char × FSEntry)}, lookupTree k t = some e → (k, e) ∈ t := by
  intro t
  induction t with
  | nil =>
    intro h
    simp [lookupTree] at h
  | cons p rest ih =>
    intro h
    simp only [lookupTree] at h
    by_cases hp : p.1 = k
    · rw [if_pos hp] at h
      have he : p.2 = e := by
        simpa using h
      have : p = (k, e) := by
        rw [← hp, ← he]
      rw [← this]
      exact List.mem_cons_self p rest
    · rw [if_neg hp] at h
      exact List.mem_cons_of_mem p (ih h)

/-! ## Lemmas: projections of `extract_tar` and `runPipeline` -/

theorem extract_tar_written (root : List (List Char)) (members : List TarMember) :
    (extract_tar root members).2 = members.filter (extractedPred root) := by
  simp only [extract_tar]
  rw [extractLoopI_none_written]
  simp

theorem extract_tar_warnings (root : List (List Char)) (members : List TarMember) :
    (extract_tar root members).1.warnings = members.filterMap (warnOf root) := by
  simp only [extract_tar]
  rw [extractLoopI_none_metadata]
  simp [initMetadata]

theorem extract_tar_errors (root : List (List Char)) (members : List TarMember) :
    (extract_tar root members).1.errors = members.filterMap (errOf root) := by
  simp only [extract_tar]
  rw [extractLoopI_none_metadata]
  simp [initMetadata]

theorem extract_tar_files (root : List (List Char)) (members : List TarMember) :
    (extract_tar root members).1.extracted_files =
      (members.filter (extractedPred root)).length := by
  simp only [extract_tar]
  rw [extractLoopI_none_metadata]
  simp [initMetadata]

/-! ## Claim theorems -/

/-- **C1** (safety, output-path containment): every member the
extraction loop actually writes resolves to a descendant of the
destination root; any member whose normalized path has a `..` segment or
is absolute, or whose resolved path escapes the root, fails validation,
is skipped with a recorded warning, and the loop still processes exactly
the validated members of the rest of the archive. -/
theorem C1_extraction_path_containment (root : List (List Char))
    (members : List TarMember) (m : TarMember) :
    (m ∈ (extract_tar root members).2 →
      isDescendantOf (resolveAbs root (normpath m.name)) root = true) ∧
    ((['.', '.'] ∈ splitSlash (normpath m.name) ∨
      startsWithChars (normpath m.name) ['/'] = true ∨
      isDescendantOf (resolveAbs root (normpath m.name)) root = false) →
      validate_path_security m.name root = false) ∧
    (m ∈ members → validate_path_security m.name root = false →
      m ∉ (extract_tar root members).2 ∧
      skippedUnsafeMsg m.name ∈ (extract_tar root members).1.warnings) ∧
    (extract_tar root members).2 = members.filter (extractedPred root) := by
  refine ⟨?_, ?_, ?_, extract_tar_written root members⟩
  · intro hm
    rw [extract_tar_written] at hm
    have hp := List.of_mem_filter hm
    have hv : validate_path_security m.name root = true := by
      simp only [extractedPred, Bool.and_eq_true] at hp
      exact hp.1.1
    exact validate_true_descendant hv
  · intro h
    rcases h with h | h | h
    · exact validate_false_of_parent_seg root h
    · exact validate_false_of_abs root h
    · exact validate_false_of_not_descendant h
  · intro hm hv
    constructor
    · rw [extract_tar_written]
      intro hcon
      have hp := List.of_mem_filter hcon
      simp [extractedPred, hv] at hp
    · rw [extract_tar_warnings]
      rw [List.mem_filterMap]
      exact ⟨m, hm, by simp [warnOf, hv]⟩

/-- **C1 witness**: the classic traversal member `../../etc/passwd` in a
five-member archive is rejected, never written, and recorded as a
warning. -/
theorem C1_witness :
    validate_path_security evilMember.name demoRoot = false ∧
    evilMember ∉ (extract_tar demoRoot demoMembers).2 ∧
    skippedUnsafeMsg evilMember.name ∈ (extract_tar demoRoot demoMembers).1.warnings := by
  have h := C1_extraction_path_containment demoRoot demoMembers evilMember
  have hv := h.2.1 (Or.inl (by decide))
  exact ⟨hv, (h.2.2.1 (by decide) hv).1, (h.2.2.1 (by decide) hv).2⟩

/-- **C7** (oversized members): a member whose declared size exceeds the
10 GiB ceiling is skipped with a warning, contributes no error, and the
rest of the archive is still processed; an otherwise clean run still
succeeds. -/
theorem C7_oversized_member_skipped (root : List (List Char))
    (members : List TarMember) (m : TarMember) (fmt : List Char)
    (hm : m ∈ members) (hv : validate_path_security m.name root = true)
    (hs : MAX_EXTRACT_SIZE < m.size) :
    m ∉ (extract_tar root members).2 ∧
    skippedOversizedMsg m.name ∈ (extract_tar root members).1.warnings ∧
    errOf root m = none ∧
    (extract_tar root members).1.errors = members.filterMap (errOf root) ∧
    (extract_tar root members).2 = members.filter (extractedPred root) ∧
    (test_extraction root
      ⟨true, true, some fmt, true, true, members, none⟩).success = true := by
  have hsz : decide (m.size ≤ MAX_EXTRACT_SIZE) = false := by
    simp only [decide_eq_false_iff_not]
    omega
  refine ⟨?_, ?_, ?_, extract_tar_errors root members, extract_tar_written root members, ?_⟩
  · rw [extract_tar_written]
    intro hcon
    have hp := List.of_mem_filter hcon
    simp [extractedPred, hsz] at hp
  · rw [extract_tar_warnings]
    rw [List.mem_filterMap]
    refine ⟨m, hm, ?_⟩
    simp [warnOf, hv, hs]
  · simp [errOf, hsz]
  · simp [test_extraction, runPipeline, extractLoopI_none_err]

/-- **C7 witness**: a 10 GiB + 1 byte member in the demo archive is
skipped with its oversize warning while the run still succeeds. -/
theorem C7_witness :
    bigMember ∉ (extract_tar demoRoot demoMembers).2 ∧
    skippedOversizedMsg bigMember.name ∈ (extract_tar demoRoot demoMembers).1.warnings ∧
    (test_extraction demoRoot demoArchive).success = true := by
  have h := C7_oversized_member_skipped demoRoot demoMembers bigMember "tar".data
    (by decide) (by decide) (by decide)
  exact ⟨h.1, h.2.1, h.2.2.2.2.2⟩

/-- **C10** (over-broad `..` rejection): the security check rejects any
member whose *normalized* path contains `..` anywhere as a substring —
even a plain filename like `foo..bar` with no parent-directory segment —
and the member is skipped with a warning. -/
theorem C10_dotdot_substring_rejected (root : List (List Char))
    (members : List TarMember) (m : TarMember) (hm : m ∈ members)
    (hdd : containsChars (normpath m.name) ['.', '.'] = true) :
    validate_path_security m.name root = false ∧
    m ∉ (extract_tar root members).2 ∧
    skippedUnsafeMsg m.name ∈ (extract_tar root members).1.warnings := by
  have hv := validate_false_of_contains root hdd
  refine ⟨hv, ?_, ?_⟩
  · rw [extract_tar_written]
    intro hcon
    have hp := List.of_mem_filter hcon
    simp [extractedPred, hv] at hp
  · rw [extract_tar_warnings]
    rw [List.mem_filterMap]
    exact ⟨m, hm, by simp [warnOf, hv]⟩

/-- **C10 witness**: `foo..bar` has no parent-directory segment and
resolves inside the destination root, yet it is rejected and skipped. -/
theorem C10_witness :
    ¬ ['.', '.'] ∈ splitSlash (normpath dotdotMember.name) ∧
    isDescendantOf (resolveAbs demoRoot (normpath dotdotMember.name)) demoRoot = true ∧
    validate_path_security dotdotMember.name demoRoot = false ∧
    dotdotMember ∉ (extract_tar demoRoot demoMembers).2 ∧
    skippedUnsafeMsg dotdotMember.name ∈ (extract_tar demoRoot demoMembers).1.warnings := by
  have h := C10_dotdot_substring_rejected demoRoot demoMembers dotdotMember
    (by decide) (by decide)
  exact ⟨by decide, by decide, h.1, h.2.1, h.2.2⟩

/-- **C4** (total best-effort extraction): `test_extraction` always
returns a result.  A clean pipeline yields `success = true`; any
escaping exception yields `success = false` with the message both in
`error_message` and appended to the metadata's error list, and the
partial counts accumulated so far.  Per-member write failures never
escape (they land in `metadata.errors` while the run succeeds), and an
interruption at member boundary `n` yields a failed result whose counts
are exactly those of the first `n` members. -/
theorem C4_no_raise_best_effort (root : List (List Char)) (inp : ArchiveInput) :
    ((runPipeline root inp).err = none → (test_extraction root inp).success = true) ∧
    (∀ e, (runPipeline root inp).err = some e →
      (test_extraction root inp).success = false ∧
      (test_extraction root inp).error_message = some e ∧
      e ∈ (test_extraction root inp).metadata.errors ∧
      (test_extraction root inp).file_count = (runPipeline root inp).md.extracted_files ∧
      (test_extraction root inp).total_size = (runPipeline root inp).md.extracted_size) ∧
    (inp.present = true → inp.isFile = true → inp.format.isSome = true →
      inp.destOk = true → inp.checksumOk = true → inp.interruptAt = none →
      (test_extraction root inp).success = true ∧
      (test_extraction root inp).metadata.errors = inp.members.filterMap (errOf root)) ∧
    (∀ n, inp.present = true → inp.isFile = true → inp.format.isSome = true →
      inp.destOk = true → inp.checksumOk = true → inp.interruptAt = some n →
      n < inp.members.length →
      (test_extraction root inp).success = false ∧
      (test_extraction root inp).error_message = some interruptedMsg ∧
      (test_extraction root inp).file_count =
        ((inp.members.take n).filter (extractedPred root)).length ∧
      (test_extraction root inp).total_size =
        (((inp.members.take n).filter (extractedPred root)).map writtenBytes).sum) := by
  refine ⟨?_, ?_, ?_, ?_⟩
  · intro h
    simp only [test_extraction]
    rw [h]
  · intro e h
    simp only [test_extraction]
    rw [h]
    simp
  · intro hp hf hfmt hd hc hi
    obtain ⟨fmt, hfmt'⟩ := Option.isSome_iff_exists.mp hfmt
    have hrun : runPipeline root inp =
        ⟨(extractLoopI root none 0 (initMetadata inp.members) [] inp.members).1,
         (extractLoopI root none 0 (initMetadata inp.members) [] inp.members).2.1,
         (extractLoopI root none 0 (initMetadata inp.members) [] inp.members).2.2, fmt⟩ := by
      simp [runPipeline, hp, hf, hfmt', hd, hc, hi]
    have herr : (runPipeline root inp).err = none := by
      rw [hrun]
      exact extractLoopI_none_err root inp.members 0 _ _
    constructor
    · simp only [test_extraction]
      rw [herr]
    · simp only [test_extraction]
      rw [herr]
      simp only [hrun]
      rw [extractLoopI_none_metadata]
      simp [initMetadata]
  · intro n hp hf hfmt hd hc hi hn
    obtain ⟨fmt, hfmt'⟩ := Option.isSome_iff_exists.mp hfmt
    have hloop := extractLoopI_interrupt root inp.members n 0
      (initMetadata inp.members) [] hn
    rw [Nat.zero_add] at hloop
    have hrun : runPipeline root inp =
        ⟨some interruptedMsg,
         (extractLoopI root none 0 (initMetadata inp.members) [] (inp.members.take n)).2.1,
         (extractLoopI root none 0 (initMetadata inp.members) [] (inp.members.take n)).2.2,
         fmt⟩ := by
      simp only [runPipeline, hp, hf, hfmt', hd, hc, hi]
      simp [hloop]
    refine ⟨?_, ?_, ?_, ?_⟩
    · simp only [test_extraction]
      rw [hrun]
    · simp only [test_extraction]
      rw [hrun]
    · simp only [test_extraction]
      rw [hrun]
      simp only []
      rw [extractLoopI_none_metadata]
      simp [initMetadata]
    · simp only [test_extraction]
      rw [hrun]
      simp only []
      rw [extractLoopI_none_metadata]
      simp [initMetadata]

/-- **C4 witness**: a missing archive file yields a failed best-effort
result; the demo archive (with one failing member) still succeeds with
that failure recorded; interrupting the demo archive before its second
member yields a failed result counting only the first member. -/
theorem C4_witness :
    (test_extraction demoRoot missingArchive).success = false ∧
    (test_extraction demoRoot missingArchive).error_message = some notFoundMsg ∧
    notFoundMsg ∈ (test_extraction demoRoot missingArchive).metadata.errors ∧
    (test_extraction demoRoot demoArchive).success = true ∧
    (test_extraction demoRoot demoArchive).metadata.errors =
      demoMembers.filterMap (errOf demoRoot) ∧
    (test_extraction demoRoot interruptedArchive).success = false ∧
    (test_extraction demoRoot interruptedArchive).file_count =
      ((demoMembers.take 1).filter (extractedPred demoRoot)).length := by
  have h1 := (C4_no_raise_best_effort demoRoot missingArchive).2.1 notFoundMsg (by decide)
  have h2 := (C4_no_raise_best_effort demoRoot demoArchive).2.2.1
    (by decide) (by decide) (by decide) (by decide) (by decide) (by decide)
  have h3 := (C4_no_raise_best_effort demoRoot interruptedArchive).2.2.2 1
    (by decide) (by decide) (by decide) (by decide) (by decide) (by decide) (by decide)
  exact ⟨h1.1, h1.2.1, h1.2.2.1, h2.1, h2.2, h3.1, h3.2.2.1⟩

/-- Characterization of a completed comparison run: the missing-path
counters are the sizes of the two key-set differences, the processed
total is the size of the key-set union, the pair loop contributes no
error entries, the difference list is the missing-path differences
followed by each common pair's differences, and the identical/different
counters partition the common paths. -/
theorem content_comparison_fields (src tgt : List (List Char × FSEntry))
    (mode : ComparisonMode) :
    (content_comparison src tgt mode).files_missing_source =
      ((keysOf tgt).filter (fun k => decide (k ∉ keysOf src))).length ∧
    (content_comparison src tgt mode).files_missing_target =
      ((keysOf src).filter (fun k => decide (k ∉ keysOf tgt))).length ∧
    (content_comparison src tgt mode).total_files_processed =
      ((keysOf src ++ keysOf tgt).toFinset).card ∧
    (content_comparison src tgt mode).errors = [] ∧
    (content_comparison src tgt mode).differences =
      ((((keysOf src).filter (fun k => decide (k ∉ keysOf tgt))).map
        (fun p => (⟨p, .missing_target, missingTargetMsg⟩ : FileDifference))
        ++ ((keysOf tgt).filter (fun k => decide (k ∉ keysOf src))).map
          (fun p => (⟨p, .missing_source, missingSourceMsg⟩ : FileDifference)))
        ++ (((keysOf src).filter (fun k => decide (k ∈ keysOf tgt))).map
            (pairDiffs src tgt mode)).flatten) ∧
    (content_comparison src tgt mode).files_identical +
      (content_comparison src tgt mode).files_different =
      ((keysOf src).filter (fun k => decide (k ∈ keysOf tgt))).length := by
  have hmem : ∀ k ∈ (keysOf src).filter (fun k => decide (k ∈ keysOf tgt)),
      (lookupTree k src).isSome = true ∧ (lookupTree k tgt).isSome = true := by
    intro k hk
    have h1 := List.mem_of_mem_filter hk
    have h2 := List.of_mem_filter hk
    simp only [decide_eq_true_eq] at h2
    exact ⟨lookupTree_isSome_of_mem h1, lookupTree_isSome_of_mem h2⟩
  refine ⟨?_, ?_, ?_, ?_, ?_, ?_⟩
  · simp only [content_comparison]
    rw [(foldl_pairStep_invariants src tgt mode _ _).2.1]
  · simp only [content_comparison]
    rw [(foldl_pairStep_invariants src tgt mode _ _).2.2.1]
  · simp only [content_comparison]
  · simp only [content_comparison]
    rw [(foldl_pairStep_invariants src tgt mode _ _).1]
  · simp only [content_comparison]
    rw [foldl_pairStep_differences src tgt mode]
  · simp only [content_comparison]
    rw [foldl_pairStep_counts src tgt mode _ _ hmem]
    simp

theorem length_filter_mem (a b : List (List Char)) (ha : a.Nodup) :
    (a.filter (fun k => decide (k ∈ b))).length = (a.toFinset ∩ b.toFinset).card := by
  have hnd : (a.filter (fun k => decide (k ∈ b))).Nodup := ha.filter _
  rw [← List.toFinset_card_of_nodup hnd]
  congr 1
  ext x
  simp [List.mem_filter]

theorem length_filter_not_mem (a b : List (List Char)) (ha : a.Nodup) :
    (a.filter (fun k => decide (k ∉ b))).length = (a.toFinset \ b.toFinset).card := by
  have hnd : (a.filter (fun k => decide (k ∉ b))).Nodup := ha.filter _
  rw [← List.toFinset_card_of_nodup hnd]
  congr 1
  ext x
  simp [List.mem_filter]

/-- **C5** (success-rate formula): `success_rate` is exactly
`identical / processed * 100`, is `100` when nothing was processed, and
comparing two empty trees processes zero files and reports `100`. -/
theorem C5_success_rate_formula (r : ComparisonResultM) (mode : ComparisonMode) :
    (r.total_files_processed ≠ 0 →
      success_rate r = (r.files_identical : ℚ) / (r.total_files_processed : ℚ) * 100) ∧
    (r.total_files_processed = 0 → success_rate r = 100) ∧
    (content_comparison [] [] mode).total_files_processed = 0 ∧
    success_rate (content_comparison [] [] mode) = 100 := by
  have hempty :
      (content_comparison ([] : List (List Char × FSEntry)) [] mode).total_files_processed
        = 0 := by
    simp [content_comparison, keysOf]
  refine ⟨?_, ?_, hempty, ?_⟩
  · intro h
    simp [success_rate, h]
  · intro h
    simp [success_rate, h]
  · simp [success_rate, hempty]

/-- **C5 witness**: instantiated on a concrete result with one identical
file out of two processed, and on the empty-tree comparison. -/
theorem C5_witness :
    success_rate
      { comparison_mode := .full, total_files_processed := 2, files_identical := 1
        files_different := 1, files_missing_source := 0, files_missing_target := 0
        differences := [], total_bytes_processed := 0, errors := [] } = 1 / 2 * 100 ∧
    (content_comparison [] [] .full).total_files_processed = 0 ∧
    success_rate (content_comparison [] [] .full) = 100 := by
  have h := C5_success_rate_formula
    { comparison_mode := .full, total_files_processed := 2, files_identical := 1
      files_different := 1, files_missing_source := 0, files_missing_target := 0
      differences := [], total_bytes_processed := 0, errors := [] } ComparisonMode.full
  refine ⟨?_, h.2.2.1, h.2.2.2⟩
  have := h.1 (by decide)
  rw [this]
  norm_num

/-- **C9** (counter partition invariant): for a completed run the four
per-file counters sum to the processed total, which is the number of
distinct relative paths in the union of the two trees. -/
theorem C9_counter_partition (src tgt : List (List Char × FSEntry))
    (mode : ComparisonMode) (hs : (keysOf src).Nodup) (ht : (keysOf tgt).Nodup) :
    (content_comparison src tgt mode).files_identical +
      (content_comparison src tgt mode).files_different +
      (content_comparison src tgt mode).files_missing_source +
      (content_comparison src tgt mode).files_missing_target =
      (content_comparison src tgt mode).total_files_processed ∧
    (content_comparison src tgt mode).total_files_processed =
      ((keysOf src).toFinset ∪ (keysOf tgt).toFinset).card := by
  obtain ⟨hms, hmt, htot, -, -, hcnt⟩ := content_comparison_fields src tgt mode
  have htot' : (content_comparison src tgt mode).total_files_processed =
      ((keysOf src).toFinset ∪ (keysOf tgt).toFinset).card := by
    rw [htot, List.toFinset_append]
  refine ⟨?_, htot'⟩
  have e5 := length_filter_mem (keysOf src) (keysOf tgt) hs
  have e6 := length_filter_not_mem (keysOf tgt) (keysOf src) ht
  have e7 := length_filter_not_mem (keysOf src) (keysOf tgt) hs
  have e8 := Finset.card_sdiff_add_card (keysOf src).toFinset (keysOf tgt).toFinset
  have e9 := Finset.card_inter_add_card_sdiff (keysOf tgt).toFinset (keysOf src).toFinset
  have e10 : ((keysOf tgt).toFinset ∩ (keysOf src).toFinset).card =
      ((keysOf src).toFinset ∩ (keysOf tgt).toFinset).card := by
    rw [Finset.inter_comm]
  omega

/-- **C9 witness**: on two concrete one-element trees sharing their only
path, the counters partition the single processed path. -/
theorem C9_witness :
    (content_comparison treeA treeB .full).files_identical +
      (content_comparison treeA treeB .full).files_different +
      (content_comparison treeA treeB .full).files_missing_source +
      (content_comparison treeA treeB .full).files_missing_target =
      (content_comparison treeA treeB .full).total_files_processed ∧
    (content_comparison treeA treeB .full).total_files_processed =
      ((keysOf treeA).toFinset ∪ (keysOf treeB).toFinset).card := by
  exact C9_counter_partition treeA treeB .full (by decide) (by decide)

/-- **C6** (round-trip self-comparison): comparing a collected tree with
distinct relative paths against itself in `full` mode, with every entry
readable, finds no differences and reports a 100% success rate. -/
theorem C6_self_comparison_clean (T : List (List Char × FSEntry))
    (hrd : ∀ p ∈ T, p.2.readable = true) (hnd : (keysOf T).Nodup) :
    (content_comparison T T .full).differences = [] ∧
    success_rate (content_comparison T T .full) = 100 := by
  obtain ⟨hms, hmt, htot, herr, hdiff, hcnt⟩ := content_comparison_fields T T .full
  have hfn : (keysOf T).filter (fun k => decide (k ∉ keysOf T)) = [] := by
    apply List.filter_eq_nil_iff.mpr
    intro a ha
    simp [ha]
  have hfs : (keysOf T).filter (fun k => decide (k ∈ keysOf T)) = keysOf T := by
    apply List.filter_eq_self.mpr
    intro a ha
    simp [ha]
  have hpd : ∀ k ∈ keysOf T, pairDiffs T T ComparisonMode.full k = [] ∧
      (lookupTree k T).isSome = true ∧ (lookupTree k T).isSome = true := by
    intro k hk
    have hsome := lookupTree_isSome_of_mem hk
    obtain ⟨e, he⟩ := Option.isSome_iff_exists.mp hsome
    have hread : e.readable = true := hrd (k, e) (lookupTree_mem he)
    refine ⟨?_, hsome, hsome⟩
    unfold pairDiffs
    rw [he]
    simp [compare_file_pair_self k e ComparisonMode.full hread]
  have hdiffnil : (content_comparison T T .full).differences = [] := by
    rw [hdiff, hfn, hfs]
    simp only [List.map_nil, List.append_nil, List.nil_append]
    rw [List.map_congr_left (fun k hk => (hpd k hk).1)]
    simp
  have hid : (content_comparison T T .full).files_identical = (keysOf T).length := by
    simp only [content_comparison]
    rw [foldl_pairStep_identical T T ComparisonMode.full _ _
      (fun k hk => hpd k (List.mem_of_mem_filter hk))]
    simp [hfs]
  have htotlen :
      (content_comparison T T .full).total_files_processed = (keysOf T).length := by
    rw [htot, List.toFinset_append, Finset.union_self, List.toFinset_card_of_nodup hnd]
  refine ⟨hdiffnil, ?_⟩
  by_cases h0 : (keysOf T).length = 0
  · simp [success_rate, htotlen, h0]
  · simp [success_rate, htotlen, h0, hid]

/-- **C6 witness**: a concrete two-file tree compared against itself. -/
theorem C6_witness :
    (content_comparison treeTwo treeTwo .full).differences = [] ∧
    success_rate (content_comparison treeTwo treeTwo .full) = 100 := by
  exact C6_self_comparison_clean treeTwo (by decide) (by decide)

/-- **C2 counterexample**: one pair whose metadata read raises.  The
completed result records the synthetic content-mismatch difference and
counts the pair as different, but its `errors` list is *empty* — the
claim's "both an entry in `errors` and a synthetic difference" is false
on the code: `compare_file_pair` swallows the exception before the
result-collection loop (the only place that appends to `errors`) can
see it. -/
theorem C2_counterexample :
    (content_comparison treeBad treeA .full).differences =
      [⟨"a.txt".data, .content_mismatch, comparisonErrorMsg⟩] ∧
    (content_comparison treeBad treeA .full).files_different = 1 ∧
    (content_comparison treeBad treeA .full).errors = [] := by
  decide

/-- **C2 amended**: a per-pair exception is captured as a synthetic
content-mismatch difference only (no entry is added to `errors`, which
the pair loop never touches); the run still completes, counting every
common path exactly once, so one bad pair never aborts the
comparison. -/
theorem C2_pair_exception_synthetic_difference (src tgt : List (List Char × FSEntry))
    (mode : ComparisonMode) (k : List Char) (se te : FSEntry)
    (hs : lookupTree k src = some se) (ht : lookupTree k tgt = some te)
    (hks : k ∈ keysOf src) (hkt : k ∈ keysOf tgt)
    (hbad : (se.readable && te.readable) = false) :
    (⟨k, .content_mismatch, comparisonErrorMsg⟩ : FileDifference) ∈
      (content_comparison src tgt mode).differences ∧
    (content_comparison src tgt mode).errors = [] ∧
    (content_comparison src tgt mode).files_identical +
      (content_comparison src tgt mode).files_different =
      ((keysOf src).filter (fun k => decide (k ∈ keysOf tgt))).length := by
  obtain ⟨-, -, -, herr, hdiff, hcnt⟩ := content_comparison_fields src tgt mode
  refine ⟨?_, herr, hcnt⟩
  rw [hdiff]
  have hkc : k ∈ (keysOf src).filter (fun k => decide (k ∈ keysOf tgt)) :=
    List.mem_filter.mpr ⟨hks, by simp [hkt]⟩
  have hpd : pairDiffs src tgt mode k =
      [⟨k, .content_mismatch, comparisonErrorMsg⟩] := by
    unfold pairDiffs
    rw [hs, ht]
    simp [compare_file_pair, hbad]
  apply List.mem_append.mpr
  right
  refine List.mem_flatten.mpr
    ⟨[⟨k, .content_mismatch, comparisonErrorMsg⟩], ?_, by simp⟩
  rw [← hpd]
  exact List.mem_map_of_mem _ hkc

/-- **C2 witness** (for the amended claim): the concrete unreadable pair
produces the synthetic difference while `errors` stays empty and the
single common path is still counted. -/
theorem C2_witness :
    (⟨"a.txt".data, .content_mismatch, comparisonErrorMsg⟩ : FileDifference) ∈
      (content_comparison treeBad treeA .full).differences ∧
    (content_comparison treeBad treeA .full).errors = [] ∧
    (content_comparison treeBad treeA .full).files_identical +
      (content_comparison treeBad treeA .full).files_different =
      ((keysOf treeBad).filter (fun k => decide (k ∈ keysOf treeA))).length := by
  exact C2_pair_exception_synthetic_difference treeBad treeA .full "a.txt".data
    entryUnreadable entryA (by decide) (by decide) (by decide) (by decide) (by decide)

/-- **C8** (finish is idempotent, finished is terminal): a second
`finish` is a no-op on the state, so the terminal report is unchanged at
any fixed observation time; a first `finish` from a running state forces
the counter to the total and sets the flag, and no operation ever clears
the finished flag. -/
theorem C8_finish_idempotent (s : TrackerState) (m m2 msgU : List Char)
    (t now : ℚ) (k c : Nat) :
    finishOp (finishOp s m) m2 = finishOp s m ∧
    get_report (finishOp (finishOp s m) m2) now = get_report (finishOp s m) now ∧
    (finishOp s m).is_finished = true ∧
    (s.is_finished = false →
      (finishOp s m).current = (finishOp s m).total_items ∧
      (finishOp s m).current = s.total_items) ∧
    (startOp s t).is_finished = s.is_finished ∧
    (updateOp s t k msgU).is_finished = s.is_finished ∧
    (setCurrentOp s t c msgU).is_finished = s.is_finished := by
  have hfin : (finishOp s m).is_finished = true := by
    unfold finishOp
    split <;> simp_all
  have hidem : finishOp (finishOp s m) m2 = finishOp s m := by
    rw [finishOp, if_pos hfin]
  refine ⟨hidem, by rw [hidem], hfin, ?_, ?_, ?_, ?_⟩
  · intro hf
    constructor <;> simp [finishOp, hf]
  · unfold startOp
    split <;> rfl
  · simp only [updateOp, startOp]
    split_ifs <;> simp
  · simp only [setCurrentOp, startOp]
    split_ifs <;> simp

/-- **C8 witness**: a concrete running tracker finished twice equals it
finished once, including the report at a fixed later time, and the first
finish forces `current` to the total. -/
theorem C8_witness :
    finishOp (finishOp c8state "Complete".data) "Complete".data =
      finishOp c8state "Complete".data ∧
    get_report (finishOp (finishOp c8state "Complete".data) "Complete".data) 5 =
      get_report (finishOp c8state "Complete".data) 5 ∧
    (finishOp c8state "Complete".data).current = c8state.total_items := by
  have h := C8_finish_idempotent c8state "Complete".data "Complete".data [] 2 5 1 3
  exact ⟨h.1, h.2.1, (h.2.2.2.1 (by decide)).2⟩

/-- **C3 counterexample**: a four-sample ring buffer (well within the
10-sample retention) whose oldest/newest two-point rate is `100/3` with
ETA `3`, while the code reports throughput `0` and no ETA — because the
code computes the rate over `samples[-3:]`, the last three samples, not
the oldest and newest retained samples as the claim states. -/
theorem C3_counterexample :
    calculate_throughput c3state = some 0 ∧
    spec_throughput c3state = some (100 / 3) ∧
    calculate_throughput c3state ≠ spec_throughput c3state ∧
    calculate_eta c3state = none ∧
    spec_eta c3state = some 3 ∧
    calculate_eta c3state ≠ spec_eta c3state ∧
    c3state.samples.length ≤ MAX_SAMPLES := by
  have h1 : calculate_throughput c3state = some 0 := by
    simp [calculate_throughput, c3state]
  have h2 : spec_throughput c3state = some (100 / 3) := by
    simp [spec_throughput, c3state]
  have h4 : calculate_eta c3state = none := by
    simp [calculate_eta, c3state]
  have h5 : spec_eta c3state = some 3 := by
    simp [spec_eta, spec_throughput, c3state]
    norm_num
  refine ⟨h1, h2, ?_, h4, h5, ?_, by decide⟩
  · rw [h1, h2]
    intro hx
    rw [Option.some.injEq] at hx
    norm_num at hx
  · rw [h4, h5]
    simp

/-- **C3 amended**: the buffer retains the last 10 samples (an 11th
pushes out the oldest), and throughput/ETA are the two-point rate over
the oldest and newest of the **last three** retained samples; ETA is
reported only when at least two samples exist, something was processed,
and that window rate is positive. -/
theorem C3_rate_uses_last_three_window (s : TrackerState) (t : ℚ) (cur : Nat) :
    MAX_SAMPLES = 10 ∧
    (s.samples.length ≤ MAX_SAMPLES →
      (pushSample s.samples t cur).length ≤ MAX_SAMPLES) ∧
    (s.samples.length = MAX_SAMPLES →
      pushSample s.samples t cur = s.samples.drop 1 ++ [(t, cur)]) ∧
    calculate_throughput s = spec_throughput (lastWindow s) ∧
    calculate_eta s =
      (if 2 ≤ s.samples.length ∧ 0 < s.current then spec_eta (lastWindow s)
       else none) := by
  refine ⟨rfl, ?_, ?_, ?_, ?_⟩
  · intro h
    simp only [pushSample]
    split <;> simp_all
  · intro h
    simp only [pushSample]
    rw [if_pos (by simp [h, MAX_SAMPLES])]
    rw [List.drop_append_of_le_length (by simp [h, MAX_SAMPLES])]
  · simp only [calculate_throughput, spec_throughput, lastWindow]
    by_cases h2 : s.samples.length < 2
    · have h3 : s.samples.length - 3 = 0 := by omega
      simp [h2, h3]
    · have hlen : ¬ (s.samples.drop (s.samples.length - 3)).length < 2 := by
        simp [List.length_drop]
        omega
      simp [h2, hlen]
  · simp only [calculate_eta, spec_eta, spec_throughput, lastWindow]
    by_cases hA : s.samples.length < 2 ∨ s.current = 0
    · have hB : ¬ (2 ≤ s.samples.length ∧ 0 < s.current) := by omega
      simp [hA, hB]
    · have hB : 2 ≤ s.samples.length ∧ 0 < s.current := by omega
      have hlen : ¬ (s.samples.drop (s.samples.length - 3)).length < 2 := by
        simp [List.length_drop]
        omega
      simp only [if_neg hA, if_pos hB, if_neg hlen]
      rcases hh : (s.samples.drop (s.samples.length - 3)).head? with _ | a
      · simp [hh]
      · rcases hg : (s.samples.drop (s.samples.length - 3)).getLast? with _ | b
        · simp [hh, hg]
        · simp only [hh, hg]
          by_cases ht : b.1 - a.1 ≤ 0
          · simp [ht]
          · by_cases hi : (b.2 : ℤ) - (a.2 : ℤ) ≤ 0
            · have hrate : ¬ (0 : ℚ) < ((b.2 : ℚ) - (a.2 : ℚ)) / (b.1 - a.1) := by
                apply not_lt.mpr
                apply div_nonpos_iff.mpr
                exact Or.inr ⟨by exact_mod_cast hi, le_of_lt (not_le.mp ht)⟩
              simp [ht, hi, hrate]
            · simp [ht, hi]

/-- **C3 amended witness**: instantiated on the four-sample state (the
window agreement and the retention bound) and on a full ten-sample
buffer (pushing an 11th sample drops the oldest). -/
theorem C3_amended_witness :
    (pushSample c3state.samples 4 100).length ≤ MAX_SAMPLES ∧
    calculate_throughput c3state = spec_throughput (lastWindow c3state) ∧
    pushSample c10state.samples 10 100 = c10state.samples.drop 1 ++ [(10, 100)] := by
  have h3 := C3_rate_uses_last_three_window c3state 4 100
  have h10 := C3_rate_uses_last_three_window c10state 10 100
  exact ⟨h3.2.1 (by decide), h3.2.2.2.1, h10.2.2.1 (by decide)⟩

end DGMO

